import Mathlib

/-!
Shallow embedding of `ht-qdotblot.py` (a 96-well dot-blot quantification tool)
and proofs about its specification claims.

Real-valued (numpy float) arithmetic is modelled exactly over `ℚ`; machine
integer casts (`astype(np.uint16)`, Python `int(...)`) are modelled by explicit
truncation; numpy/OpenCV calls that raise on degenerate inputs (statistics over
an empty array, division by zero producing NaN) are modelled as `Option`
returning `none` in exactly those situations.
-/

/-- Floor of a rational, computed from its normalised fields (`Int` `/` is
Euclidean division, which agrees with the floor since the denominator is
positive). -/
def qfloor (q : ℚ) : ℤ := q.num / q.den

/-- Ceiling of a rational. -/
def qceil (q : ℚ) : ℤ := -qfloor (-q)

/-- Truncation toward zero, the semantics of Python `int(...)` and of a C cast
of a nonnegative float (`astype(np.uint16)`). -/
def qtrunc (q : ℚ) : ℤ := q.num.tdiv q.den

/-- Round-half-to-even of a rational, the semantics of Python `round` and of
OpenCV `cvRound`. -/
def roundHalfEven (q : ℚ) : ℤ :=
  let f := qfloor q
  if q - f < 1/2 then f
  else if 1/2 < q - f then f + 1
  else if 2 ∣ f then f else f + 1

/-- Python `round(x, 1)`: round to one decimal place. -/
def round1 (q : ℚ) : ℚ := (roundHalfEven (10 * q) : ℚ) / 10

/-- `np.clip(x, lo, hi) = min(max(x, lo), hi)`. -/
def clipQ (x lo hi : ℚ) : ℚ := min (max x lo) hi

/-! ## Contrast adjuster (`adjust_image`, line 461) and image loading -/

/-- `np.percentile(xs, q)` with the default linear interpolation: with the
samples sorted ascending, the value at fractional position `q/100 * (n-1)`. -/
def percentile (xs : List ℕ) (q : ℚ) : ℚ :=
  let s := List.insertionSort (· ≤ ·) xs
  let pos := q * ((xs.length : ℚ) - 1) / 100
  let vlo : ℚ := (s.getD (qfloor pos).toNat 0 : ℕ)
  let vhi : ℚ := (s.getD (qceil pos).toNat 0 : ℕ)
  vlo + (pos - (qfloor pos : ℚ)) * (vhi - vlo)

/-- `adjust_image` (line 461): percentile-stretch the raw 16-bit samples to the
display range.  `v_min` is the 0th percentile, `v_max` the
`(100 - 100*f)`-th percentile.  The code divides by `v_max - v_min` with no
guard; when that difference is zero the float result is NaN/inf, modelled here
as `none`. -/
def adjust_image (xs : List ℕ) (f : ℚ) : Option (List ℕ) :=
  let vmin := percentile xs 0
  let vmax := percentile xs (100 - f * 100)
  if vmax - vmin = 0 then none
  else some (xs.map fun v =>
    (qtrunc (clipQ (((v : ℚ) - vmin) * 65535 / (vmax - vmin)) 0 65535)).toNat)

/-- `cv2.convertScaleAbs(src, alpha)` on one sample: scale, take the absolute
value, round half to even, and saturate to the 8-bit range `[0, 255]`
(the output of `convertScaleAbs` is always 8-bit). -/
def convertScaleAbs (alpha : ℚ) (v : ℕ) : ℕ :=
  min 255 (roundHalfEven (|(v : ℚ)| * alpha)).toNat

/-- `load_image` promotion of a non-16-bit sample (lines 385-387):
`cv2.convertScaleAbs(img, alpha=65535/255)` followed by `astype(np.uint16)`
(which preserves the 8-bit value). -/
def load_promote_sample (v : ℕ) : ℕ := convertScaleAbs (65535 / 255) v

/-- The promotion the spec asks for: a linear rescale `v * 65535 / 255`. -/
def spec_promote_sample (v : ℕ) : ℕ := v * 65535 / 255

/-! ## Grid model (`draw_grid`, lines 742-789) -/

/-- One well centre of `draw_grid`: with `c0, c1, c2` the three picked corners
(origin, horizontal corner, vertical corner),
`row_vec = (c2 - c0)/(R-1)`, `col_vec = (c1 - c0)/(C-1)`, the origin is
translated by the grid offset once, and the spacing adjustment is added per
step: `center = a1 + i*(row_vec + [0, sy]) + j*(col_vec + [sx, 0])`. -/
def gridCenter (c0 c1 c2 : ℚ × ℚ) (R C : ℕ) (off sp : ℚ × ℚ) (i j : ℕ) : ℚ × ℚ :=
  ((c0.1 + off.1) + i * ((c2.1 - c0.1) / ((R : ℚ) - 1) + 0)
               + j * ((c1.1 - c0.1) / ((C : ℚ) - 1) + sp.1),
   (c0.2 + off.2) + i * ((c2.2 - c0.2) / ((R : ℚ) - 1) + sp.2)
               + j * ((c1.2 - c0.2) / ((C : ℚ) - 1) + 0))

/-- All `R*C` well centres drawn by `draw_grid`, in row-major order
(`for i in range(nrows): for j in range(ncols)`). -/
def draw_grid_centers (c0 c1 c2 : ℚ × ℚ) (R C : ℕ) (off sp : ℚ × ℚ) : List (ℚ × ℚ) :=
  (List.range R).flatMap fun i =>
    (List.range C).map fun j => gridCenter c0 c1 c2 R C off sp i j

/-- Three corners are non-collinear when the two grid direction vectors are
linearly independent (nonzero cross product). -/
def noncollinear (c0 c1 c2 : ℚ × ℚ) : Prop :=
  (c1.1 - c0.1) * (c2.2 - c0.2) - (c1.2 - c0.2) * (c2.1 - c0.1) ≠ 0

/-- `get_well_name` (line 791): row letter (`'A'` + row) followed by the
column number zero-padded to two digits. -/
def wellName (row col : ℕ) : String :=
  String.mk [Char.ofNat (65 + row)] ++
    (if col + 1 < 10 then "0" ++ toString (col + 1) else toString (col + 1))

/-! ## Spacing adjustment (`adjust_grid_spacing`, lines 706-716) -/

/-- The two spacing axes wired to the width/height buttons. -/
inductive SpacingAxis where
  | width
  | height
deriving DecidableEq, Repr

/-- The pure state update of `adjust_grid_spacing`: adjusting one axis adds the
delta to it and resets the other axis to zero. -/
def adjust_grid_spacing_step (sp : ℤ × ℤ) (c : SpacingAxis × ℤ) : ℤ × ℤ :=
  match c.1 with
  | .width => (sp.1 + c.2, 0)
  | .height => (0, sp.2 + c.2)

/-! ## ROI measurement (`measure_grid`, lines 797-831) -/

/-- A Python/numpy slice endpoint: a negative index counts from the end of the
sequence, and results are clamped to `[0, n]`. -/
def pyIdx (n : ℕ) (i : ℤ) : ℕ :=
  if i < 0 then ((n : ℤ) + i).toNat else min n i.toNat

/-- The flattened ROI pixel window of `measure_grid` (lines 810-813):
`image[y_min:y_max, x_min:x_max]` with
`x_min = max(0, cx - r)`, `x_max = min(W, cx + r)` and likewise for `y`,
under Python slice semantics (`pyIdx`), flattened row-major. -/
def roiPixels (img : List (List ℕ)) (cx cy r : ℤ) : List ℕ :=
  let H := img.length
  let W := (img.headD []).length
  let ylo := pyIdx H (max 0 (cy - r))
  let yhi := pyIdx H (min (H : ℤ) (cy + r))
  let xlo := pyIdx W (max 0 (cx - r))
  let xhi := pyIdx W (min (W : ℤ) (cx + r))
  ((img.take yhi).drop ylo).flatMap fun row => (row.take xhi).drop xlo

/-- The list of indices `[a, b)` (for `0 ≤ a`), as described by the spec's
half-open clamped window. -/
def idxInterval (a b : ℤ) : List ℕ :=
  (List.range (b - a).toNat).map fun k => a.toNat + k

/-- The measurement window exactly as the spec words it: the pixels of the raw
image at positions of the square half-open window `[cx-r, cx+r) × [cy-r, cy+r)`
clamped to the image bounds. -/
def specWindow (img : List (List ℕ)) (cx cy r : ℤ) : List ℕ :=
  let H : ℤ := img.length
  let W : ℤ := (img.headD []).length
  (idxInterval (max 0 (cy - r)) (min H (cy + r))).flatMap fun y =>
    (idxInterval (max 0 (cx - r)) (min W (cx + r))).map fun x =>
      (img.getD y []).getD x 0

/-- `np.min` over a nonempty list (raises on an empty array). -/
def npMin (xs : List ℕ) : ℕ :=
  match xs with
  | [] => 0
  | x :: t => t.foldl min x

/-- `np.max` over a nonempty list (raises on an empty array). -/
def npMax (xs : List ℕ) : ℕ :=
  match xs with
  | [] => 0
  | x :: t => t.foldl max x

/-- `np.mean`: arithmetic mean. -/
def npMean (xs : List ℕ) : ℚ := (xs.sum : ℚ) / xs.length

/-- `np.median`: middle element of the sorted samples, or the average of the
two middle elements for an even count. -/
def npMedian (xs : List ℕ) : ℚ :=
  let s := List.insertionSort (· ≤ ·) xs
  let n := xs.length
  if n % 2 = 1 then (s.getD (n / 2) 0 : ℕ)
  else (((s.getD (n / 2 - 1) 0 : ℕ) : ℚ) + ((s.getD (n / 2) 0 : ℕ) : ℚ)) / 2

/-- Population variance; `np.std` is its square root (the model keeps the
square since the root is irrational in general, and no claim depends on the
rounded standard-deviation value). -/
def npVar (xs : List ℕ) : ℚ :=
  (xs.map fun v => ((v : ℚ) - npMean xs) ^ 2).sum / xs.length

/-- `np.bincount`: occurrence counts of every value `0 .. max` (empty output
for an empty input). -/
def bincount (xs : List ℕ) : List ℕ :=
  match xs with
  | [] => []
  | _ => (List.range (npMax xs + 1)).map fun v => xs.count v

/-- `np.argmax`: index of the first occurrence of the maximum value; raises on
an empty array (modelled as `none`). -/
def npArgmax : List ℕ → Option ℕ
  | [] => none
  | x :: xs =>
    match npArgmax xs with
    | none => some 0
    | some j => if x < xs.getD j 0 then some (j + 1) else some 0

/-- The mode statistic of `measure_grid` (line 817):
`np.argmax(np.bincount(pixels))`. -/
def npMode (xs : List ℕ) : Option ℕ := npArgmax (bincount xs)

/-- One measurement record (lines 821-831).  `mean` and `stdev` are rounded to
one decimal by the code; the model stores the rounded mean and the exact
population variance (see `npVar`). -/
structure MRecord where
  well : String
  x_center : ℤ
  y_center : ℤ
  median : ℤ
  mean : ℚ
  var : ℚ
  mode : ℕ
  min : ℕ
  max : ℕ
deriving DecidableEq, Repr

/-- Measurement of a single well (loop body of `measure_grid`): truncate the
centre coordinates with `int(...)`, slice the square window out of the raw
image, and compute the statistics.  numpy raises (`ValueError` from
`np.argmax`/`np.min`/`np.max`, NaN conversion from `int(np.median)`) on an
empty window: modelled as `none`. -/
def measureOne (img : List (List ℕ)) (well : String) (c : ℚ × ℚ) (r : ℤ) :
    Option MRecord :=
  let cx := qtrunc c.1
  let cy := qtrunc c.2
  let px := roiPixels img cx cy r
  if px = [] then none
  else some
    { well := well
      x_center := cx
      y_center := cy
      median := qtrunc (npMedian px)
      mean := round1 (npMean px)
      var := npVar px
      mode := (npMode px).getD 0
      min := npMin px
      max := npMax px }

/-- The full measurement pass of `measure_grid`: one record per drawn circle in
row-major order, well names from the flat index.  A numpy exception at any
well aborts the whole pass (`none`). -/
def measure_grid (img : List (List ℕ)) (centers : List (ℚ × ℚ)) (ncols : ℕ)
    (r : ℤ) : Option (List MRecord) :=
  centers.enum.mapM fun p =>
    measureOne img (wellName (p.1 / ncols) (p.1 % ncols)) p.2 r

/-! ## Grid definition state machine (`WellGridApp` methods) -/

/-- The slice of `WellGridApp` state the grid-definition claims are about.
`hasImage` stands for `current_image is not None`; the scene-item lists
(`corner_points`, `corner_lines`, `circles`, `labels`) are tracked as the data
they render. -/
structure AppState where
  hasImage : Bool
  corners : List (ℚ × ℚ)
  corner_points : List (ℚ × ℚ)
  corner_lines : List ((ℚ × ℚ) × (ℚ × ℚ))
  circles : List (ℚ × ℚ)
  labels : List String
  grid_offset : ℤ × ℤ
  grid_spacing : ℤ × ℤ
  defining_grid : Bool
  grid_defined : Bool
  nrows : ℕ
  ncols : ℕ
deriving DecidableEq, Repr

/-- `init_variables` (lines 63-85): the initial/reset state. -/
def initState : AppState :=
  { hasImage := false
    corners := []
    corner_points := []
    corner_lines := []
    circles := []
    labels := []
    grid_offset := (0, 0)
    grid_spacing := (0, 0)
    defining_grid := false
    grid_defined := false
    nrows := 8
    ncols := 12 }

/-- `remove_grid` (lines 686-693): clear every grid item list and the corners. -/
def remove_grid (s : AppState) : AppState :=
  { s with circles := [], labels := [], corner_lines := [], corner_points := [],
           corners := [] }

/-- `reset_grid` (lines 695-704): only acts when a grid is currently defined. -/
def reset_grid (s : AppState) : AppState :=
  if s.grid_defined then remove_grid { s with grid_defined := false } else s

/-- `define_grid` (lines 658-668): no-op without an image; otherwise reset any
defined grid and enter picking mode. -/
def define_grid (s : AppState) : AppState :=
  if s.hasImage = false then s
  else { reset_grid s with grid_defined := false, defining_grid := true }

/-- `reset_define_grid` (lines 670-677): leave picking mode. -/
def reset_define_grid (s : AppState) : AppState :=
  { reset_grid s with defining_grid := false }

/-- `toggle_define_grid_mode` (lines 643-656). -/
def toggle_define_grid_mode (s : AppState) : AppState :=
  if s.defining_grid then reset_define_grid s
  else define_grid (if s.grid_defined then reset_grid s else s)

/-- `draw_orientation_lines` (lines 725-740): only with all three corners. -/
def draw_orientation_lines (s : AppState) : AppState :=
  if s.corners.length = 3 then
    { s with corner_lines :=
        [(s.corners.getD 0 (0, 0), s.corners.getD 1 (0, 0)),
         (s.corners.getD 0 (0, 0), s.corners.getD 2 (0, 0))] }
  else s

/-- `draw_grid` (lines 742-789) as a state operation: recompute the circle
centres and labels from the corners and grid parameters. -/
def draw_grid_op (s : AppState) : AppState :=
  if s.corners.length = 3 then
    { s with
      circles := draw_grid_centers (s.corners.getD 0 (0, 0)) (s.corners.getD 1 (0, 0))
          (s.corners.getD 2 (0, 0)) s.nrows s.ncols
          ((s.grid_offset.1 : ℚ), (s.grid_offset.2 : ℚ))
          ((s.grid_spacing.1 : ℚ), (s.grid_spacing.2 : ℚ)),
      labels := (List.range s.nrows).flatMap fun i =>
          (List.range s.ncols).map fun j => wellName i j }
  else s

/-- `update_grid` (lines 611-614): redraw orientation lines and grid. -/
def update_grid (s : AppState) : AppState := draw_grid_op (draw_orientation_lines s)

/-- `on_mouse_press` (lines 348-371): append a corner while picking; the third
corner freezes the set and draws the grid. -/
def on_mouse_press (p : ℚ × ℚ) (s : AppState) : AppState :=
  if s.corners.length < 3 ∧ s.defining_grid then
    let s1 := { s with corners := s.corners ++ [p],
                       corner_points := s.corner_points ++ [p] }
    if s1.corners.length = 3 then
      draw_grid_op (draw_orientation_lines
        { s1 with grid_defined := true, defining_grid := false })
    else s1
  else s

/-- `move_grid` (lines 718-723): translate the grid offset and redraw. -/
def move_grid (dx dy : ℤ) (s : AppState) : AppState :=
  update_grid { s with grid_offset := (s.grid_offset.1 + dx, s.grid_offset.2 + dy) }

/-- `adjust_grid_spacing` (lines 706-716) as a state operation. -/
def adjust_grid_spacing (s : AppState) (c : SpacingAxis × ℤ) : AppState :=
  update_grid { s with grid_spacing := adjust_grid_spacing_step s.grid_spacing c }

/-- `reset_app` (lines 872-881): back to `init_variables`. -/
def reset_app (_s : AppState) : AppState := initState


/-! ## Bridge lemmas for the rational helpers -/

lemma qfloor_eq_floor (q : ℚ) : qfloor q = ⌊q⌋ := (Rat.floor_def).symm

lemma qceil_eq_ceil (q : ℚ) : qceil q = ⌈q⌉ := by
  rw [qceil, qfloor_eq_floor, Int.floor_neg, neg_neg]

lemma qtrunc_intCast (n : ℤ) : qtrunc (n : ℚ) = n := by
  simp [qtrunc, Rat.num_intCast, Rat.den_intCast, Int.tdiv_one]

lemma qtrunc_zero : qtrunc 0 = 0 := by
  simpa using qtrunc_intCast 0

lemma roundHalfEven_intCast (n : ℤ) : roundHalfEven (n : ℚ) = n := by
  have h : qfloor (n : ℚ) = n := by rw [qfloor_eq_floor, Int.floor_intCast]
  simp only [roundHalfEven, h]
  norm_num

/-! ## C4: 8-bit to 16-bit promotion -/

/-- Claim C4 (code bug evaluation): the claimed promotion is the linear rescale
`v * 65535 / 255`, so a sample of 255 should become 65535 and a sample of 1
should become 257; but `cv2.convertScaleAbs` saturates its output to the 8-bit
range, so `load_image` maps 255 to 255 (and already 1 to 255), never reaching
the 16-bit range. -/
theorem load_promote_saturates :
    load_promote_sample 255 = 255 ∧ load_promote_sample 1 = 255
    ∧ spec_promote_sample 255 = 65535 ∧ spec_promote_sample 1 = 257
    ∧ load_promote_sample 255 ≠ spec_promote_sample 255 := by
  have h255 : load_promote_sample 255 = 255 := by
    have e : |((255 : ℕ) : ℚ)| * (65535 / 255) = ((65535 : ℤ) : ℚ) := by norm_num
    rw [load_promote_sample, convertScaleAbs, e, roundHalfEven_intCast]
    decide
  have h1 : load_promote_sample 1 = 255 := by
    have e : |((1 : ℕ) : ℚ)| * (65535 / 255) = ((257 : ℤ) : ℚ) := by norm_num
    rw [load_promote_sample, convertScaleAbs, e, roundHalfEven_intCast]
    decide
  refine ⟨h255, h1, by decide, by decide, ?_⟩
  rw [h255]; decide

/-! ## C9: spacing-axis mutual exclusivity -/

lemma draw_orientation_lines_grid_spacing (s : AppState) :
    (draw_orientation_lines s).grid_spacing = s.grid_spacing := by
  unfold draw_orientation_lines
  split <;> rfl

lemma draw_grid_op_grid_spacing (s : AppState) :
    (draw_grid_op s).grid_spacing = s.grid_spacing := by
  unfold draw_grid_op
  split <;> rfl

lemma update_grid_grid_spacing (s : AppState) :
    (update_grid s).grid_spacing = s.grid_spacing := by
  rw [update_grid, draw_grid_op_grid_spacing, draw_orientation_lines_grid_spacing]

lemma adjust_grid_spacing_grid_spacing (s : AppState) (c : SpacingAxis × ℤ) :
    (adjust_grid_spacing s c).grid_spacing = adjust_grid_spacing_step s.grid_spacing c := by
  rw [adjust_grid_spacing, update_grid_grid_spacing]

lemma adjust_grid_spacing_invariant :
    ∀ (calls : List (SpacingAxis × ℤ)) (s : AppState),
      s.grid_spacing.1 = 0 ∨ s.grid_spacing.2 = 0 →
      (calls.foldl adjust_grid_spacing s).grid_spacing.1 = 0 ∨
      (calls.foldl adjust_grid_spacing s).grid_spacing.2 = 0 := by
  intro calls
  induction calls with
  | nil => intro s hs; exact hs
  | cons c rest ih =>
    intro s _
    refine ih (adjust_grid_spacing s c) ?_
    rw [adjust_grid_spacing_grid_spacing]
    cases hc : c.1 <;> simp [adjust_grid_spacing_step, hc]

/-- Claim C9: after every finite sequence of spacing-adjustment calls starting
from the initial state, at most one axis of `grid_spacing` is non-zero; and a
width adjustment adds the delta to the width axis while zeroing the height
axis, and symmetrically for a height adjustment. -/
theorem adjust_spacing_exclusive (calls : List (SpacingAxis × ℤ)) :
    ((calls.foldl adjust_grid_spacing initState).grid_spacing.1 = 0 ∨
     (calls.foldl adjust_grid_spacing initState).grid_spacing.2 = 0)
    ∧ (∀ sp : ℤ × ℤ, ∀ d : ℤ,
        adjust_grid_spacing_step sp (SpacingAxis.width, d) = (sp.1 + d, 0))
    ∧ (∀ sp : ℤ × ℤ, ∀ d : ℤ,
        adjust_grid_spacing_step sp (SpacingAxis.height, d) = (0, sp.2 + d)) := by
  refine ⟨adjust_grid_spacing_invariant calls initState (Or.inl rfl), ?_, ?_⟩
  · intro sp d; rfl
  · intro sp d; rfl

/-! ## C5: cancelling mid-pick does not clear the partial corners -/

/-- Claim C5 (code bug evaluation): from a fresh state with an image, start
grid definition, click one corner `(1, 2)`, then toggle again (the cancel
transition).  The claim says the collected corners are cleared; in the code
`reset_grid` is guarded by `grid_defined`, which is `False` mid-pick, so the
partial corner survives the cancel. -/
theorem cancel_keeps_partial_corner :
    (toggle_define_grid_mode (on_mouse_press (1, 2)
        (toggle_define_grid_mode { initState with hasImage := true }))).corners
      = [((1 : ℚ), (2 : ℚ))]
    ∧ (toggle_define_grid_mode (on_mouse_press (1, 2)
        (toggle_define_grid_mode { initState with hasImage := true }))).defining_grid
      = false
    ∧ (toggle_define_grid_mode (on_mouse_press (1, 2)
        (toggle_define_grid_mode { initState with hasImage := true }))).grid_defined
      = false := by
  decide

/-! ## C2: measuring an entirely out-of-bounds well -/

/-- Claim C2 (code bug evaluation): on a 2x2 image, a well centred at
`(1000, 1000)` with radius 15 has a clamped window with zero pixels.
`measure_grid` has no emptiness check: it goes on to compute
`np.min`/`np.max`/`np.argmax(np.bincount(...))` over the empty array, which
raises `ValueError` (modelled by `none`) instead of skipping the record or
filling it with sentinels. -/
theorem measure_grid_empty_window_crashes :
    roiPixels [[1, 1], [1, 1]] 1000 1000 15 = []
    ∧ measure_grid [[1, 1], [1, 1]] [((1000 : ℚ), (1000 : ℚ))] 12 15 = none := by
  decide

/-! ## C10: frame effect of starting a new grid definition -/

/-- Counterexample to claim C10: after a cancel that left one partially picked
corner behind, starting a new grid definition does NOT clear the stored
corners (`reset_grid` is a no-op because `grid_defined` is `False`), so the
stale corner `(1, 2)` is still collected. -/
theorem start_define_after_cancel_keeps_corners :
    (toggle_define_grid_mode (toggle_define_grid_mode (on_mouse_press (1, 2)
        (toggle_define_grid_mode { initState with hasImage := true })))).corners
      = [((1 : ℚ), (2 : ℚ))]
    ∧ [((1 : ℚ), (2 : ℚ))] ≠ ([] : List (ℚ × ℚ))
    ∧ (toggle_define_grid_mode (toggle_define_grid_mode (on_mouse_press (1, 2)
        (toggle_define_grid_mode { initState with hasImage := true })))).defining_grid
      = true := by
  decide

lemma reset_grid_grid_offset (s : AppState) :
    (reset_grid s).grid_offset = s.grid_offset := by
  unfold reset_grid remove_grid; split <;> rfl

lemma reset_grid_grid_spacing (s : AppState) :
    (reset_grid s).grid_spacing = s.grid_spacing := by
  unfold reset_grid remove_grid; split <;> rfl

lemma define_grid_grid_offset (s : AppState) :
    (define_grid s).grid_offset = s.grid_offset := by
  unfold define_grid
  split
  · rfl
  · exact reset_grid_grid_offset s

lemma define_grid_grid_spacing (s : AppState) :
    (define_grid s).grid_spacing = s.grid_spacing := by
  unfold define_grid
  split
  · rfl
  · exact reset_grid_grid_spacing s

lemma toggle_grid_offset (s : AppState) :
    (toggle_define_grid_mode s).grid_offset = s.grid_offset := by
  unfold toggle_define_grid_mode reset_define_grid
  split
  · exact reset_grid_grid_offset s
  · split
    · rw [define_grid_grid_offset, reset_grid_grid_offset]
    · rw [define_grid_grid_offset]

lemma toggle_grid_spacing (s : AppState) :
    (toggle_define_grid_mode s).grid_spacing = s.grid_spacing := by
  unfold toggle_define_grid_mode reset_define_grid
  split
  · exact reset_grid_grid_spacing s
  · split
    · rw [define_grid_grid_spacing, reset_grid_grid_spacing]
    · rw [define_grid_grid_spacing]

/-- Claim C10 as amended: starting a new grid definition from the Defined
state clears the stored corners and all drawn grid items, and no toggle
(start or cancel) ever changes the accumulated grid offset or spacing
adjustment; only the full application reset restores them to `(0, 0)`.
(After a cancel that left partial corners, a new start does NOT clear them —
see the counterexample.) -/
theorem start_define_frame_effect (s : AppState)
    (hd : s.grid_defined = true) (hp : s.defining_grid = false)
    (hi : s.hasImage = true) :
    (toggle_define_grid_mode s).corners = []
    ∧ (toggle_define_grid_mode s).circles = []
    ∧ (toggle_define_grid_mode s).labels = []
    ∧ (toggle_define_grid_mode s).corner_lines = []
    ∧ (toggle_define_grid_mode s).corner_points = []
    ∧ (toggle_define_grid_mode s).grid_offset = s.grid_offset
    ∧ (toggle_define_grid_mode s).grid_spacing = s.grid_spacing
    ∧ (∀ t : AppState, (toggle_define_grid_mode t).grid_offset = t.grid_offset
        ∧ (toggle_define_grid_mode t).grid_spacing = t.grid_spacing)
    ∧ (reset_app s).grid_offset = (0, 0)
    ∧ (reset_app s).grid_spacing = (0, 0) := by
  have hmain : toggle_define_grid_mode s =
      { remove_grid { s with grid_defined := false } with
          grid_defined := false, defining_grid := true } := by
    unfold toggle_define_grid_mode
    rw [if_neg (by rw [hp]; simp)]
    rw [if_pos hd]
    unfold reset_grid
    rw [if_pos hd]
    unfold define_grid
    rw [if_neg (by simp [remove_grid, hi])]
    unfold reset_grid
    rw [if_neg (by simp [remove_grid])]
  refine ⟨?_, ?_, ?_, ?_, ?_, ?_, ?_, ?_, rfl, rfl⟩
  · rw [hmain]; rfl
  · rw [hmain]; rfl
  · rw [hmain]; rfl
  · rw [hmain]; rfl
  · rw [hmain]; rfl
  · rw [hmain]; rfl
  · rw [hmain]; rfl
  · intro t; exact ⟨toggle_grid_offset t, toggle_grid_spacing t⟩

/-- A concrete state in the Defined phase: three corners picked, a drawn grid,
and accumulated offset and spacing edits. -/
def definedStateExample : AppState :=
  { hasImage := true
    corners := [(0, 0), (11, 0), (0, 7)]
    corner_points := [(0, 0), (11, 0), (0, 7)]
    corner_lines := [((0, 0), (11, 0)), ((0, 0), (0, 7))]
    circles := [(5, 5)]
    labels := ["A01"]
    grid_offset := (3, -2)
    grid_spacing := (4, 0)
    defining_grid := false
    grid_defined := true
    nrows := 8
    ncols := 12 }

/-- Witness for `start_define_frame_effect` at `definedStateExample`. -/
theorem start_define_frame_effect_witness :
    definedStateExample.grid_defined = true
    ∧ definedStateExample.defining_grid = false
    ∧ definedStateExample.hasImage = true
    ∧ ((toggle_define_grid_mode definedStateExample).corners = []
      ∧ (toggle_define_grid_mode definedStateExample).circles = []
      ∧ (toggle_define_grid_mode definedStateExample).labels = []
      ∧ (toggle_define_grid_mode definedStateExample).corner_lines = []
      ∧ (toggle_define_grid_mode definedStateExample).corner_points = []
      ∧ (toggle_define_grid_mode definedStateExample).grid_offset
          = definedStateExample.grid_offset
      ∧ (toggle_define_grid_mode definedStateExample).grid_spacing
          = definedStateExample.grid_spacing
      ∧ (∀ t : AppState,
          (toggle_define_grid_mode t).grid_offset = t.grid_offset
          ∧ (toggle_define_grid_mode t).grid_spacing = t.grid_spacing)
      ∧ (reset_app definedStateExample).grid_offset = (0, 0)
      ∧ (reset_app definedStateExample).grid_spacing = (0, 0)) :=
  ⟨rfl, rfl, rfl, start_define_frame_effect definedStateExample rfl rfl rfl⟩

/-! ## Minimum / maximum / sortedness helpers -/

lemma foldl_min_mem : ∀ (t : List ℕ) (a : ℕ), t.foldl min a ∈ a :: t := by
  intro t
  induction t with
  | nil => intro a; simp
  | cons x t ih =>
    intro a
    have h := ih (min a x)
    simp only [List.foldl_cons]
    rcases List.mem_cons.mp h with h1 | h1
    · rcases min_choice a x with hm | hm
      · rw [h1, hm]; exact List.mem_cons_self _ _
      · rw [h1, hm]; exact List.mem_cons_of_mem _ (List.mem_cons_self _ _)
    · exact List.mem_cons_of_mem _ (List.mem_cons_of_mem _ h1)

lemma foldl_min_le : ∀ (t : List ℕ) (a b : ℕ), b ∈ a :: t → t.foldl min a ≤ b := by
  intro t
  induction t with
  | nil =>
    intro a b hb
    simp at hb
    simp [hb]
  | cons x t ih =>
    intro a b hb
    have hacc : t.foldl min (min a x) ≤ min a x :=
      ih (min a x) (min a x) (List.mem_cons_self _ _)
    rcases List.mem_cons.mp hb with rfl | hb1
    · exact le_trans hacc (min_le_left _ _)
    · rcases List.mem_cons.mp hb1 with rfl | hb2
      · exact le_trans hacc (min_le_right _ _)
      · exact ih (min a x) b (List.mem_cons_of_mem _ hb2)

lemma foldl_max_mem : ∀ (t : List ℕ) (a : ℕ), t.foldl max a ∈ a :: t := by
  intro t
  induction t with
  | nil => intro a; simp
  | cons x t ih =>
    intro a
    have h := ih (max a x)
    simp only [List.foldl_cons]
    rcases List.mem_cons.mp h with h1 | h1
    · rcases max_choice a x with hm | hm
      · rw [h1, hm]; exact List.mem_cons_self _ _
      · rw [h1, hm]; exact List.mem_cons_of_mem _ (List.mem_cons_self _ _)
    · exact List.mem_cons_of_mem _ (List.mem_cons_of_mem _ h1)

lemma le_foldl_max : ∀ (t : List ℕ) (a b : ℕ), b ∈ a :: t → b ≤ t.foldl max a := by
  intro t
  induction t with
  | nil =>
    intro a b hb
    simp at hb
    simp [hb]
  | cons x t ih =>
    intro a b hb
    have hacc : max a x ≤ t.foldl max (max a x) :=
      ih (max a x) (max a x) (List.mem_cons_self _ _)
    rcases List.mem_cons.mp hb with rfl | hb1
    · exact le_trans (le_max_left _ _) hacc
    · rcases List.mem_cons.mp hb1 with rfl | hb2
      · exact le_trans (le_max_right _ _) hacc
      · exact ih (max a x) b (List.mem_cons_of_mem _ hb2)

lemma npMin_mem {xs : List ℕ} (h : xs ≠ []) : npMin xs ∈ xs := by
  cases xs with
  | nil => exact absurd rfl h
  | cons x t => exact foldl_min_mem t x

lemma npMin_le {xs : List ℕ} {a : ℕ} (ha : a ∈ xs) : npMin xs ≤ a := by
  cases xs with
  | nil => cases ha
  | cons x t => exact foldl_min_le t x a ha

lemma npMax_mem {xs : List ℕ} (h : xs ≠ []) : npMax xs ∈ xs := by
  cases xs with
  | nil => exact absurd rfl h
  | cons x t => exact foldl_max_mem t x

lemma le_npMax {xs : List ℕ} {a : ℕ} (ha : a ∈ xs) : a ≤ npMax xs := by
  cases xs with
  | nil => cases ha
  | cons x t => exact le_foldl_max t x a ha

lemma sorted_getD_zero_le (s : List ℕ) (hs : List.Sorted (· ≤ ·) s) :
    ∀ a ∈ s, s.getD 0 0 ≤ a := by
  cases s with
  | nil => simp
  | cons y t =>
    intro a ha
    rw [List.getD_cons_zero]
    rcases List.mem_cons.mp ha with rfl | hat
    · exact le_refl a
    · exact (List.sorted_cons.mp hs).1 a hat

lemma sorted_le_getD_last (s : List ℕ) (hs : List.Sorted (· ≤ ·) s) :
    ∀ a ∈ s, a ≤ s.getD (s.length - 1) 0 := by
  induction s with
  | nil => simp
  | cons y t ih =>
    intro a ha
    cases t with
    | nil =>
      simp at ha
      simp [ha]
    | cons z t' =>
      obtain ⟨hy, hs'⟩ := List.sorted_cons.mp hs
      have hidx : (y :: z :: t').length - 1 = ((z :: t').length - 1) + 1 := by
        simp
      rw [hidx, List.getD_cons_succ]
      rcases List.mem_cons.mp ha with rfl | hat
      · have hlast : (z :: t').getD ((z :: t').length - 1) 0 ∈ z :: t' := by
          rw [List.getD_eq_getElem _ _ (by simp)]
          exact List.getElem_mem _
        exact hy _ hlast
      · exact ih hs' a hat

/-! ## Percentile endpoints -/

lemma percentile_zero (xs : List ℕ) (h : xs ≠ []) :
    percentile xs 0 = (npMin xs : ℚ) := by
  simp only [percentile]
  have h0 : (0 : ℚ) * ((xs.length : ℚ) - 1) / 100 = 0 := by ring
  rw [h0]
  have hf : qfloor (0 : ℚ) = 0 := by rw [qfloor_eq_floor]; exact Int.floor_zero
  rw [hf]
  simp only [Int.toNat_zero, Int.cast_zero, sub_zero, zero_mul, add_zero, Nat.cast_inj]
  have hperm := List.perm_insertionSort (· ≤ ·) xs
  have hsort := List.sorted_insertionSort (· ≤ ·) xs
  have hlen : 0 < (List.insertionSort (· ≤ ·) xs).length := by
    rw [hperm.length_eq]
    exact List.length_pos.mpr h
  have hmem0 : (List.insertionSort (· ≤ ·) xs).getD 0 0 ∈ xs := by
    rw [List.getD_eq_getElem _ _ hlen]
    exact hperm.mem_iff.mp (List.getElem_mem hlen)
  exact le_antisymm
    (sorted_getD_zero_le _ hsort _ (hperm.mem_iff.mpr (npMin_mem h)))
    (npMin_le hmem0)

lemma percentile_hundred (xs : List ℕ) (h : xs ≠ []) :
    percentile xs 100 = (npMax xs : ℚ) := by
  simp only [percentile]
  have h1 : 1 ≤ xs.length := List.length_pos.mpr h
  have h0 : (100 : ℚ) * ((xs.length : ℚ) - 1) / 100 = ((xs.length - 1 : ℕ) : ℚ) := by
    rw [Nat.cast_sub h1]
    push_cast
    ring
  rw [h0]
  have hf : qfloor ((xs.length - 1 : ℕ) : ℚ) = (xs.length - 1 : ℕ) := by
    rw [qfloor_eq_floor]
    exact_mod_cast Int.floor_natCast _
  rw [hf]
  simp only [Int.toNat_natCast, Int.cast_natCast, sub_self, zero_mul, add_zero,
    Nat.cast_inj]
  have hperm := List.perm_insertionSort (· ≤ ·) xs
  have hsort := List.sorted_insertionSort (· ≤ ·) xs
  have hslen : (List.insertionSort (· ≤ ·) xs).length = xs.length := hperm.length_eq
  have hlt : xs.length - 1 < (List.insertionSort (· ≤ ·) xs).length := by
    rw [hslen]; omega
  have hmeml : (List.insertionSort (· ≤ ·) xs).getD (xs.length - 1) 0 ∈ xs := by
    rw [List.getD_eq_getElem _ _ hlt]
    exact hperm.mem_iff.mp (List.getElem_mem hlt)
  have hlast := sorted_le_getD_last _ hsort (npMax xs) (hperm.mem_iff.mpr (npMax_mem h))
  rw [hslen] at hlast
  exact le_antisymm (le_npMax hmeml) hlast

/-! ## C3: degenerate contrast range -/

/-- Claim C3 (code bug evaluation): on the constant image `[7,7,7,7]` both
percentiles are 7, so `v_max - v_min = 0`; `adjust_image` has no special case
and divides by zero (float NaN/inf, modelled as `none`) instead of returning
a safe constant output. -/
theorem adjust_image_divides_by_zero :
    adjust_image [7, 7, 7, 7] 0 = none
    ∧ npMax [7, 7, 7, 7] = npMin [7, 7, 7, 7] := by
  have e1 : percentile [7, 7, 7, 7] (100 - 0 * 100) = ((7 : ℕ) : ℚ) := by
    have hq : (100 : ℚ) - 0 * 100 = 100 := by norm_num
    rw [hq, percentile_hundred [7, 7, 7, 7] (by decide)]
    have h7 : npMax [7, 7, 7, 7] = 7 := by decide
    rw [h7]
  have e2 : percentile [7, 7, 7, 7] 0 = ((7 : ℕ) : ℚ) := by
    rw [percentile_zero [7, 7, 7, 7] (by decide)]
    have h7 : npMin [7, 7, 7, 7] = 7 := by decide
    rw [h7]
  constructor
  · simp only [adjust_image, e1, e2, sub_self, if_pos]
  · decide

/-! ## C7: the contrast stretch formula -/

lemma qtrunc_cast_65535 : (qtrunc ((65535 : ℚ))).toNat = 65535 := by
  have h : ((65535 : ℚ)) = (((65535 : ℤ)) : ℚ) := by norm_num
  rw [h, qtrunc_intCast]
  decide

/-- Claim C7: for a nonempty sample list and saturation fraction `f ∈ [0,1]`
with distinct percentiles, `adjust_image` returns exactly
`clip((v - v_min) * 65535 / (v_max - v_min), 0, 65535)` truncated to unsigned
16-bit at every position, where `v_min` is the 0th percentile (= the minimum)
and `v_max` the `(100*(1-f))`-th percentile; and for `f = 0`, `v_max` is the
maximum, the minimum sample maps to 0 and the maximum sample to 65535. -/
theorem adjust_image_formula (xs : List ℕ) (f : ℚ) (hne : xs ≠ [])
    (hf0 : 0 ≤ f) (hf1 : f ≤ 1)
    (hvv : percentile xs (100 - f * 100) ≠ percentile xs 0) :
    adjust_image xs f = some (xs.map fun v =>
      (qtrunc (clipQ (((v : ℚ) - percentile xs 0) * 65535 /
        (percentile xs (100 - f * 100) - percentile xs 0)) 0 65535)).toNat)
    ∧ percentile xs 0 = (npMin xs : ℚ)
    ∧ (f = 0 →
        percentile xs (100 - f * 100) = (npMax xs : ℚ)
        ∧ (qtrunc (clipQ ((((npMin xs : ℕ) : ℚ) - percentile xs 0) * 65535 /
            (percentile xs (100 - f * 100) - percentile xs 0)) 0 65535)).toNat = 0
        ∧ (qtrunc (clipQ ((((npMax xs : ℕ) : ℚ) - percentile xs 0) * 65535 /
            (percentile xs (100 - f * 100) - percentile xs 0)) 0 65535)).toNat
          = 65535) := by
  have hsub : percentile xs (100 - f * 100) - percentile xs 0 ≠ 0 :=
    sub_ne_zero.mpr hvv
  refine ⟨?_, percentile_zero xs hne, ?_⟩
  · simp only [adjust_image, if_neg hsub]
  · intro hf
    subst hf
    have hq : (100 : ℚ) - 0 * 100 = 100 := by norm_num
    have hmax : percentile xs (100 - 0 * 100) = (npMax xs : ℚ) := by
      rw [hq, percentile_hundred xs hne]
    refine ⟨hmax, ?_, ?_⟩
    · rw [percentile_zero xs hne, sub_self, zero_mul, zero_div]
      have hclip : clipQ 0 0 65535 = 0 := by
        rw [clipQ]
        norm_num
      rw [hclip, qtrunc_zero]
      rfl
    · rw [percentile_zero xs hne, hmax]
      have hd : ((npMax xs : ℕ) : ℚ) - ((npMin xs : ℕ) : ℚ) ≠ 0 := by
        rw [← hmax, ← percentile_zero xs hne]
        exact hsub
      have e : (((npMax xs : ℕ) : ℚ) - ((npMin xs : ℕ) : ℚ)) * 65535 /
          (((npMax xs : ℕ) : ℚ) - ((npMin xs : ℕ) : ℚ)) = 65535 := by
        rw [mul_comm, mul_div_assoc, div_self hd, mul_one]
      rw [e]
      have hclip : clipQ 65535 0 65535 = 65535 := by
        rw [clipQ]
        norm_num
      rw [hclip, qtrunc_cast_65535]

/-- Witness for `adjust_image_formula` at the two-sample image `[0, 100]` with
saturation fraction 0. -/
theorem adjust_image_formula_witness :
    ([0, 100] : List ℕ) ≠ []
    ∧ (0 : ℚ) ≤ 0
    ∧ (0 : ℚ) ≤ 1
    ∧ percentile [0, 100] (100 - (0 : ℚ) * 100) ≠ percentile [0, 100] 0
    ∧ (adjust_image [0, 100] 0 = some (([0, 100] : List ℕ).map fun v =>
        (qtrunc (clipQ (((v : ℚ) - percentile [0, 100] 0) * 65535 /
          (percentile [0, 100] (100 - (0 : ℚ) * 100) - percentile [0, 100] 0))
          0 65535)).toNat)
      ∧ percentile [0, 100] 0 = (npMin [0, 100] : ℚ)
      ∧ ((0 : ℚ) = 0 →
          percentile [0, 100] (100 - (0 : ℚ) * 100) = (npMax [0, 100] : ℚ)
          ∧ (qtrunc (clipQ ((((npMin [0, 100] : ℕ) : ℚ) - percentile [0, 100] 0)
              * 65535 / (percentile [0, 100] (100 - (0 : ℚ) * 100)
                - percentile [0, 100] 0)) 0 65535)).toNat = 0
          ∧ (qtrunc (clipQ ((((npMax [0, 100] : ℕ) : ℚ) - percentile [0, 100] 0)
              * 65535 / (percentile [0, 100] (100 - (0 : ℚ) * 100)
                - percentile [0, 100] 0)) 0 65535)).toNat = 65535)) := by
  have hvv : percentile [0, 100] (100 - (0 : ℚ) * 100) ≠ percentile [0, 100] 0 := by
    have h1 : percentile [0, 100] (100 - (0 : ℚ) * 100) = ((npMax [0, 100] : ℕ) : ℚ) := by
      rw [show (100 : ℚ) - 0 * 100 = 100 by norm_num,
        percentile_hundred [0, 100] (by decide)]
    have h2 : percentile [0, 100] 0 = ((npMin [0, 100] : ℕ) : ℚ) :=
      percentile_zero [0, 100] (by decide)
    rw [h1, h2, show npMax [0, 100] = 100 by decide, show npMin [0, 100] = 0 by decide]
    norm_num
  exact ⟨by decide, le_refl 0, by norm_num, hvv,
    adjust_image_formula [0, 100] 0 (by decide) (le_refl 0) (by norm_num) hvv⟩

/-! ## C8: the mode statistic -/

lemma npArgmax_spec : ∀ (l : List ℕ), l ≠ [] →
    ∃ j, npArgmax l = some j ∧ j < l.length
      ∧ (∀ k, k < l.length → l.getD k 0 ≤ l.getD j 0)
      ∧ (∀ k, k < j → l.getD k 0 < l.getD j 0) := by
  intro l
  induction l with
  | nil => intro h; exact absurd rfl h
  | cons x t ih =>
    intro _
    by_cases htn : t = []
    · subst htn
      refine ⟨0, rfl, by simp, ?_, ?_⟩
      · intro k hk
        have hk0 : k = 0 := by simpa using hk
        subst hk0
        exact le_refl _
      · intro k hk
        omega
    · obtain ⟨j, hj_eq, hj_lt, hj_max, hj_first⟩ := ih htn
      by_cases hx : x < t.getD j 0
      · refine ⟨j + 1, ?_, by simpa using hj_lt, ?_, ?_⟩
        · simp only [npArgmax, hj_eq, if_pos hx]
        · intro k hk
          cases k with
          | zero =>
            rw [List.getD_cons_zero, List.getD_cons_succ]
            exact le_of_lt hx
          | succ k =>
            rw [List.getD_cons_succ, List.getD_cons_succ]
            exact hj_max k (by simpa using hk)
        · intro k hk
          cases k with
          | zero =>
            rw [List.getD_cons_zero, List.getD_cons_succ]
            exact hx
          | succ k =>
            rw [List.getD_cons_succ, List.getD_cons_succ]
            exact hj_first k (by omega)
      · refine ⟨0, ?_, by simp, ?_, ?_⟩
        · simp only [npArgmax, hj_eq, if_neg hx]
        · intro k hk
          cases k with
          | zero => exact le_refl _
          | succ k =>
            rw [List.getD_cons_succ, List.getD_cons_zero]
            exact le_trans (hj_max k (by simpa using hk)) (not_lt.mp hx)
        · intro k hk
          omega

lemma bincount_length {xs : List ℕ} (h : xs ≠ []) :
    (bincount xs).length = npMax xs + 1 := by
  cases xs with
  | nil => exact absurd rfl h
  | cons x t => simp [bincount]

lemma bincount_ne_nil {xs : List ℕ} (h : xs ≠ []) : bincount xs ≠ [] := by
  intro hc
  have := congrArg List.length hc
  rw [bincount_length h] at this
  simp at this

lemma bincount_getD {xs : List ℕ} (h : xs ≠ []) (v : ℕ) (hv : v < npMax xs + 1) :
    (bincount xs).getD v 0 = xs.count v := by
  have hvb : v < (bincount xs).length := by rw [bincount_length h]; exact hv
  rw [List.getD_eq_getElem _ _ hvb]
  cases xs with
  | nil => exact absurd rfl h
  | cons x t =>
    simp [bincount]

/-- Claim C8: for every nonempty window, the mode returned by
`np.argmax(np.bincount(...))` is a most frequent value, and among equally
frequent values it is the smallest; in particular the mode of `[5,5,5,7,9]`
is 5 and the mode of the tie `[1,1,2,2]` is 1. -/
theorem measure_mode_spec (xs : List ℕ) (hne : xs ≠ []) :
    (∃ m, npMode xs = some m
      ∧ (∀ v, xs.count v ≤ xs.count m)
      ∧ (∀ v, xs.count v = xs.count m → m ≤ v))
    ∧ npMode [5, 5, 5, 7, 9] = some 5
    ∧ npMode [1, 1, 2, 2] = some 1 := by
  refine ⟨?_, by decide, by decide⟩
  obtain ⟨j, hj_eq, hj_lt, hj_max, hj_first⟩ :=
    npArgmax_spec (bincount xs) (bincount_ne_nil hne)
  have hblen := bincount_length hne
  have hjmax : j < npMax xs + 1 := by rw [← hblen]; exact hj_lt
  have hcountj : (bincount xs).getD j 0 = xs.count j := bincount_getD hne j hjmax
  refine ⟨j, hj_eq, ?_, ?_⟩
  · intro v
    by_cases hv : v < npMax xs + 1
    · have h1 := hj_max v (by rw [hblen]; exact hv)
      rw [bincount_getD hne v hv, hcountj] at h1
      exact h1
    · have hnm : v ∉ xs := fun hmem => hv (by have := le_npMax hmem; omega)
      rw [List.count_eq_zero.mpr hnm]
      exact Nat.zero_le _
  · intro v hv
    by_contra hlt
    push_neg at hlt
    have hvb : v < npMax xs + 1 := by omega
    have h2 := hj_first v hlt
    rw [bincount_getD hne v hvb, hcountj] at h2
    omega

/-- Witness for `measure_mode_spec` at the window `[5, 5, 5, 7, 9]`. -/
theorem measure_mode_spec_witness :
    ([5, 5, 5, 7, 9] : List ℕ) ≠ []
    ∧ ((∃ m, npMode [5, 5, 5, 7, 9] = some m
        ∧ (∀ v, ([5, 5, 5, 7, 9] : List ℕ).count v
            ≤ ([5, 5, 5, 7, 9] : List ℕ).count m)
        ∧ (∀ v, ([5, 5, 5, 7, 9] : List ℕ).count v
            = ([5, 5, 5, 7, 9] : List ℕ).count m → m ≤ v))
      ∧ npMode [5, 5, 5, 7, 9] = some 5
      ∧ npMode [1, 1, 2, 2] = some 1) :=
  ⟨by decide, measure_mode_spec [5, 5, 5, 7, 9] (by decide)⟩

/-! ## C1: the computed grid -/

lemma gridCenter_injective (c0 c1 c2 : ℚ × ℚ) (R C : ℕ) (off : ℚ × ℚ)
    (hR : 2 ≤ R) (hC : 2 ≤ C) (hnc : noncollinear c0 c1 c2)
    (i j i' j' : ℕ)
    (h : gridCenter c0 c1 c2 R C off (0, 0) i j
        = gridCenter c0 c1 c2 R C off (0, 0) i' j') :
    i = i' ∧ j = j' := by
  have hRq : ((R : ℚ) - 1) ≠ 0 := by
    have h2 : (2 : ℚ) ≤ (R : ℚ) := by exact_mod_cast hR
    intro hc
    linarith
  have hCq : ((C : ℚ) - 1) ≠ 0 := by
    have h2 : (2 : ℚ) ≤ (C : ℚ) := by exact_mod_cast hC
    intro hc
    linarith
  have h1 := congrArg Prod.fst h
  have h2 := congrArg Prod.snd h
  simp only [gridCenter, add_zero] at h1 h2
  field_simp at h1 h2
  have e1 : ((i : ℚ) - (i' : ℚ)) * ((c2.1 - c0.1) * ((C : ℚ) - 1))
      + ((j : ℚ) - (j' : ℚ)) * ((c1.1 - c0.1) * ((R : ℚ) - 1)) = 0 := by
    linear_combination h1
  have e2 : ((i : ℚ) - (i' : ℚ)) * ((c2.2 - c0.2) * ((C : ℚ) - 1))
      + ((j : ℚ) - (j' : ℚ)) * ((c1.2 - c0.2) * ((R : ℚ) - 1)) = 0 := by
    linear_combination h2
  have hcross : (c2.1 - c0.1) * (c1.2 - c0.2) - (c2.2 - c0.2) * (c1.1 - c0.1) ≠ 0 := by
    intro hc
    exact hnc (by linarith)
  have key : ((i : ℚ) - (i' : ℚ)) * (((C : ℚ) - 1) *
      ((c2.1 - c0.1) * (c1.2 - c0.2) - (c2.2 - c0.2) * (c1.1 - c0.1))) = 0 := by
    linear_combination (c1.2 - c0.2) * e1 - (c1.1 - c0.1) * e2
  have hA : (i : ℚ) - (i' : ℚ) = 0 := by
    rcases mul_eq_zero.mp key with hA | hrest
    · exact hA
    · rcases mul_eq_zero.mp hrest with hc | hc
      · exact absurd hc hCq
      · exact absurd hc hcross
  have hi : i = i' := by
    have : (i : ℚ) = (i' : ℚ) := by linarith
    exact_mod_cast this
  have hb1 : ((j : ℚ) - (j' : ℚ)) * ((c1.1 - c0.1) * ((R : ℚ) - 1)) = 0 := by
    linear_combination e1 - ((c2.1 - c0.1) * ((C : ℚ) - 1)) * hA
  have hb2 : ((j : ℚ) - (j' : ℚ)) * ((c1.2 - c0.2) * ((R : ℚ) - 1)) = 0 := by
    linear_combination e2 - ((c2.2 - c0.2) * ((C : ℚ) - 1)) * hA
  have hB : (j : ℚ) - (j' : ℚ) = 0 := by
    by_contra hBne
    have hu1 : c1.1 - c0.1 = 0 := by
      rcases mul_eq_zero.mp hb1 with hc | hc
      · exact absurd hc hBne
      · rcases mul_eq_zero.mp hc with hc' | hc'
        · exact hc'
        · exact absurd hc' hRq
    have hu2 : c1.2 - c0.2 = 0 := by
      rcases mul_eq_zero.mp hb2 with hc | hc
      · exact absurd hc hBne
      · rcases mul_eq_zero.mp hc with hc' | hc'
        · exact hc'
        · exact absurd hc' hRq
    exact hcross (by rw [hu1, hu2]; ring)
  have hj : j = j' := by
    have : (j : ℚ) = (j' : ℚ) := by linarith
    exact_mod_cast this
  exact ⟨hi, hj⟩

lemma draw_grid_centers_length (c0 c1 c2 : ℚ × ℚ) (R C : ℕ) (off sp : ℚ × ℚ) :
    (draw_grid_centers c0 c1 c2 R C off sp).length = R * C := by
  rw [draw_grid_centers, List.length_flatMap]
  have h1 : List.map (List.length ∘ fun i => (List.range C).map
      (fun j => gridCenter c0 c1 c2 R C off sp i j)) (List.range R)
      = List.replicate R C := by
    rw [List.eq_replicate_iff]
    refine ⟨by simp, ?_⟩
    intro b hb
    obtain ⟨i, _, hbi⟩ := List.mem_map.mp hb
    rw [← hbi]
    simp
  rw [h1, List.sum_replicate, smul_eq_mul]

/-- Claim C1: with three corners picked and `R, C ≥ 2`, `draw_grid` produces
exactly `R*C` centres; every centre obeys
`center(i,j) = (corner0 + offset) + i*((corner2 - corner0)/(R-1) + (0,sy))
+ j*((corner1 - corner0)/(C-1) + (sx,0))`; `center(0,0) = corner0 + offset`;
and for non-collinear corners with zero spacing adjustment the `R*C` centres
are pairwise distinct. -/
theorem draw_grid_spec (c0 c1 c2 : ℚ × ℚ) (R C : ℕ) (off sp : ℚ × ℚ)
    (hR : 2 ≤ R) (hC : 2 ≤ C) :
    (draw_grid_centers c0 c1 c2 R C off sp).length = R * C
    ∧ (∀ i, i < R → ∀ j, j < C →
        gridCenter c0 c1 c2 R C off sp i j ∈ draw_grid_centers c0 c1 c2 R C off sp)
    ∧ gridCenter c0 c1 c2 R C off sp 0 0 = (c0.1 + off.1, c0.2 + off.2)
    ∧ (noncollinear c0 c1 c2 → sp = (0, 0) →
        (draw_grid_centers c0 c1 c2 R C off sp).Nodup) := by
  refine ⟨draw_grid_centers_length c0 c1 c2 R C off sp, ?_, ?_, ?_⟩
  · intro i hi j hj
    exact List.mem_flatMap.mpr
      ⟨i, List.mem_range.mpr hi, List.mem_map.mpr ⟨j, List.mem_range.mpr hj, rfl⟩⟩
  · simp [gridCenter]
  · intro hnc hsp
    subst hsp
    rw [draw_grid_centers, List.nodup_flatMap]
    constructor
    · intro i _
      refine List.Nodup.map_on ?_ (List.nodup_range C)
      intro x _ y _ hxy
      exact (gridCenter_injective c0 c1 c2 R C off hR hC hnc i x i y hxy).2
    · refine (List.pairwise_lt_range R).imp ?_
      intro a b hab
      intro z hza hzb
      obtain ⟨ja, _, hza'⟩ := List.mem_map.mp hza
      obtain ⟨jb, _, hzb'⟩ := List.mem_map.mp hzb
      have heq :=
        (gridCenter_injective c0 c1 c2 R C off hR hC hnc a ja b jb
          (hza'.trans hzb'.symm)).1
      omega

/-- Witness for `draw_grid_spec` on the unit corners `(0,0), (1,0), (0,1)`
with a 2x2 grid, zero offset and zero spacing. -/
theorem draw_grid_spec_witness :
    2 ≤ 2
    ∧ ((draw_grid_centers (0, 0) (1, 0) (0, 1) 2 2 (0, 0) (0, 0)).length = 2 * 2
      ∧ (∀ i, i < 2 → ∀ j, j < 2 →
          gridCenter (0, 0) (1, 0) (0, 1) 2 2 (0, 0) (0, 0) i j
            ∈ draw_grid_centers (0, 0) (1, 0) (0, 1) 2 2 (0, 0) (0, 0))
      ∧ gridCenter (0, 0) (1, 0) (0, 1) 2 2 (0, 0) (0, 0) 0 0
          = (((0 : ℚ), (0 : ℚ)).1 + ((0 : ℚ), (0 : ℚ)).1,
             ((0 : ℚ), (0 : ℚ)).2 + ((0 : ℚ), (0 : ℚ)).2)
      ∧ (noncollinear (0, 0) (1, 0) (0, 1) → ((0 : ℚ), (0 : ℚ)) = (0, 0) →
          (draw_grid_centers (0, 0) (1, 0) (0, 1) 2 2 (0, 0) (0, 0)).Nodup)) :=
  ⟨le_refl 2, draw_grid_spec (0, 0) (1, 0) (0, 1) 2 2 (0, 0) (0, 0)
    (le_refl 2) (le_refl 2)⟩

/-! ## C6: the measurement window -/

lemma take_drop_getD {α : Type} (l : List α) (d : α) (a b : ℕ) (hb : b ≤ l.length) :
    (l.take b).drop a = (List.range (b - a)).map fun k => l.getD (a + k) d := by
  apply List.ext_getElem
  · simp only [List.length_drop, List.length_take, List.length_map, List.length_range]
    omega
  · intro n h1 h2
    rw [List.getElem_drop, List.getElem_take, List.getElem_map, List.getElem_range,
      List.getD_eq_getElem]

lemma slice_pyIdx_spec {α : Type} (l : List α) (d : α) (a b : ℤ)
    (ha : 0 ≤ a) (hb : 0 ≤ b) (hbl : b ≤ (l.length : ℤ)) :
    (l.take (pyIdx l.length b)).drop (pyIdx l.length a)
      = (idxInterval a b).map fun k => l.getD k d := by
  have hpb : pyIdx l.length b = b.toNat := by
    unfold pyIdx
    rw [if_neg (by omega)]
    omega
  have hpa : pyIdx l.length a = min l.length a.toNat := by
    unfold pyIdx
    rw [if_neg (by omega)]
  rw [hpb, hpa, idxInterval]
  by_cases hc : a.toNat ≤ l.length
  · rw [min_eq_right hc, take_drop_getD l d a.toNat b.toNat (by omega), List.map_map]
    have he : (b - a).toNat = b.toNat - a.toNat := by omega
    rw [he]
    rfl
  · rw [min_eq_left (le_of_not_le hc)]
    have h1 : (l.take b.toNat).drop l.length = [] := by
      apply List.drop_eq_nil_of_le
      simp only [List.length_take]
      omega
    have h2 : (b - a).toNat = 0 := by omega
    rw [h1, h2]
    rfl

lemma flatMap_congr {α β : Type} (l : List α) (f g : α → List β)
    (h : ∀ a ∈ l, f a = g a) : l.flatMap f = l.flatMap g := by
  induction l with
  | nil => rfl
  | cons x t ih =>
    simp only [List.flatMap_cons]
    rw [h x (List.mem_cons_self _ _), ih fun a ha => h a (List.mem_cons_of_mem _ ha)]

lemma length_flatMap_const {α β : Type} (l : List α) (f : α → List β) (c : ℕ)
    (h : ∀ a ∈ l, (f a).length = c) : (l.flatMap f).length = l.length * c := by
  induction l with
  | nil => simp
  | cons x t ih =>
    simp only [List.flatMap_cons, List.length_append, List.length_cons]
    rw [h x (List.mem_cons_self _ _), ih fun a ha => h a (List.mem_cons_of_mem _ ha)]
    ring

lemma mem_idxInterval {a b : ℤ} (ha : 0 ≤ a) {y : ℕ} :
    y ∈ idxInterval a b ↔ a ≤ (y : ℤ) ∧ (y : ℤ) < b := by
  simp only [idxInterval, List.mem_map, List.mem_range]
  constructor
  · rintro ⟨k, hk, rfl⟩
    constructor <;> omega
  · rintro ⟨h1, h2⟩
    exact ⟨y - a.toNat, by omega, by omega⟩

/-- Claim C6 as amended: for a rectangular image and centre `(cx, cy)` with
`cx + r ≥ 0` and `cy + r ≥ 0`, the pixels measured by `measure_grid` are
exactly the raw-image samples of the square half-open window
`[cx-r, cx+r) × [cy-r, cy+r)` clamped to the image bounds (partial windows
measured as-is), and their number is the clamped area.  (When `cx + r < 0` or
`cy + r < 0`, Python's negative slice indices select from the opposite edge
instead — see the counterexample.) -/
theorem measure_window_spec (img : List (List ℕ))
    (hrect : ∀ row ∈ img, row.length = (img.headD []).length)
    (cx cy r : ℤ) (hx : 0 ≤ cx + r) (hy : 0 ≤ cy + r) :
    roiPixels img cx cy r = specWindow img cx cy r
    ∧ (roiPixels img cx cy r).length =
      (min (img.length : ℤ) (cy + r) - max 0 (cy - r)).toNat *
      (min ((img.headD []).length : ℤ) (cx + r) - max 0 (cx - r)).toNat := by
  have hmain : roiPixels img cx cy r = specWindow img cx cy r := by
    simp only [roiPixels, specWindow]
    rw [slice_pyIdx_spec img [] (max 0 (cy - r)) (min (img.length : ℤ) (cy + r))
      (le_max_left 0 _) (le_min (Int.natCast_nonneg _) hy) (min_le_left _ _)]
    rw [List.flatMap_map]
    apply flatMap_congr
    intro y hy_mem
    have hybd := (mem_idxInterval (le_max_left 0 _)).mp hy_mem
    have hyH : y < img.length := by
      have h2 : (y : ℤ) < (img.length : ℤ) := lt_of_lt_of_le hybd.2 (min_le_left _ _)
      exact_mod_cast h2
    have hrow : (img.getD y []).length = (img.headD []).length := by
      apply hrect
      rw [List.getD_eq_getElem _ _ hyH]
      exact List.getElem_mem _
    rw [← hrow]
    rw [slice_pyIdx_spec (img.getD y []) 0 (max 0 (cx - r))
      (min (((img.getD y []).length : ℕ) : ℤ) (cx + r)) (le_max_left 0 _)
      (le_min (Int.natCast_nonneg _) hx) (min_le_left _ _)]
  refine ⟨hmain, ?_⟩
  rw [hmain]
  simp only [specWindow]
  rw [length_flatMap_const _ _
    ((min ((img.headD []).length : ℤ) (cx + r) - max 0 (cx - r)).toNat)
    (fun y _ => by simp [idxInterval])]
  simp [idxInterval]

/-- Counterexample to claim C6 as stated: on the 3x2 image
`[[1,2],[3,4],[5,6]]` with centre `(1, -3)` and radius 2 the square window
`[-1,3) × [-5,-1)` is entirely above the image, so the clamped window is
empty; but the slice stop `min(H, cy+r) = -1` is negative, and Python
interprets it as `H-1`, so the code measures the first two rows
`[1,2,3,4]` instead. -/
theorem measure_window_counterexample :
    roiPixels [[1, 2], [3, 4], [5, 6]] 1 (-3) 2 = [1, 2, 3, 4]
    ∧ specWindow [[1, 2], [3, 4], [5, 6]] 1 (-3) 2 = []
    ∧ roiPixels [[1, 2], [3, 4], [5, 6]] 1 (-3) 2
      ≠ specWindow [[1, 2], [3, 4], [5, 6]] 1 (-3) 2 := by
  decide

/-- Witness for `measure_window_spec` on a 2x2 image with centre `(1, 1)` and
radius 1. -/
theorem measure_window_spec_witness :
    (∀ row ∈ [[1, 2], [3, 4]], row.length = (([[1, 2], [3, 4]] : List (List ℕ)).headD []).length)
    ∧ (0 : ℤ) ≤ 1 + 1
    ∧ (0 : ℤ) ≤ 1 + 1
    ∧ (roiPixels [[1, 2], [3, 4]] 1 1 1 = specWindow [[1, 2], [3, 4]] 1 1 1
      ∧ (roiPixels [[1, 2], [3, 4]] 1 1 1).length =
        (min (([[1, 2], [3, 4]] : List (List ℕ)).length : ℤ) (1 + 1) - max 0 (1 - 1)).toNat *
        (min ((([[1, 2], [3, 4]] : List (List ℕ)).headD []).length : ℤ) (1 + 1) - max 0 (1 - 1)).toNat) :=
  ⟨by decide, by decide, by decide,
    measure_window_spec [[1, 2], [3, 4]] (by decide) 1 1 1 (by decide) (by decide)⟩
